import Mathlib

set_option maxRecDepth 4000

/-!
Verification of the pstack-gdb session driver (src/pstack-gdb.c).

Shallow embedding: the output framer (read_lines), the thread-listing
parser (get_thread_ids with its in-place truncation), the attach-failure
scanner (attach_ok), the pid-list builder (get_pid_list), the
conversation state machine (process_gdb_output), and the reap supervisor
(waitpid_timeout) are translated into executable Lean functions.
Byte buffers are lists of characters; a framed turn is a list of lines.
-/

/-- The gdb interactive prompt sentinel that read_lines checks for with
g_str_has_suffix. -/
def promptTok : List Char := "(gdb) ".data

/-- The literal substring searched for by strstr in get_thread_ids. -/
def thread_tok : List Char := "Thread".data

/-- The literal token compared by strncmp in attach_ok. -/
def ptrace_tok : List Char := "ptrace:".data

/-- Splitting a non-empty buffer on every newline, as g_strsplit with
delimiter a line feed and no token limit does (trailing empty field kept). -/
def split_nl : List Char → List (List Char)
  | [] => [[]]
  | c :: rest =>
    if c = '\n' then [] :: split_nl rest
    else
      match split_nl rest with
      | [] => [[c]]
      | l :: ls => (c :: l) :: ls

/-- g_strsplit on a line feed: the empty string yields an empty vector,
any other string is split by split_nl. -/
def g_strsplit_nl : List Char → List (List Char)
  | [] => []
  | c :: rest => split_nl (c :: rest)

/-- What read_lines does once the sentinel matches: split the buffer on
line feeds and drop the final split artifact produced by the prompt. -/
def frame_lines (buf : List Char) : List (List Char) :=
  (g_strsplit_nl buf).dropLast

/-- One result of g_io_channel_read_chars inside the read_lines loop:
a chunk of bytes with status NORMAL, or a zero-byte result with status
AGAIN, EOF, or an error status. -/
inductive ReadEvent
  | chunk (d : List Char)
  | again
  | eof
  | err
deriving DecidableEq

/-- read_lines: accumulate reads into a buffer; after every read, if the
buffer ends with the prompt sentinel, frame the turn; AGAIN and EOF end
the loop with no turn framed; an error status prints a message (the
Boolean component) and ends the loop.  An exhausted event list means no
further data was delivered. -/
def read_lines : List ReadEvent → List Char → Option (List (List Char)) × Bool
  | [], _ => (none, false)
  | ev :: rest, buf =>
    match ev with
    | ReadEvent.chunk d =>
      if promptTok.isSuffixOf (buf ++ d) then (some (frame_lines (buf ++ d)), false)
      else read_lines rest (buf ++ d)
    | ReadEvent.again =>
      if promptTok.isSuffixOf buf then (some (frame_lines buf), false) else (none, false)
    | ReadEvent.eof =>
      if promptTok.isSuffixOf buf then (some (frame_lines buf), false) else (none, false)
    | ReadEvent.err =>
      if promptTok.isSuffixOf buf then (some (frame_lines buf), true) else (none, true)

/-- Concatenation of delivered chunks (the total stream content). -/
def cat_chunks : List (List Char) → List Char
  | [] => []
  | c :: rest => c ++ cat_chunks rest

/-- process_gdb_output returns FALSE (deregistering the output watch)
exactly when read_lines produced no framed turn. -/
def process_continues (framed : Option (List (List Char))) : Bool :=
  framed.isSome

/-- strstr as a Boolean: does the pattern occur as a contiguous substring? -/
def strstr_b (pat : List Char) : List Char → Bool
  | [] => false
  | c :: rest => pat.isPrefixOf (c :: rest) || strstr_b pat rest

/-- The character scan inside get_thread_ids: walk the line; once a digit
has been seen, the first following non-digit truncates the line there
(the C writes a NUL byte).  Returns the truncated line when a digit was
found, none otherwise. -/
def digit_scan : List Char → Bool → Option (List Char)
  | [], found => if found then some [] else none
  | c :: rest, found =>
    if c.isDigit then
      match digit_scan rest true with
      | some t => some (c :: t)
      | none => none
    else if found then some []
    else
      match digit_scan rest false with
      | some t => some (c :: t)
      | none => none

/-- Per-line work of get_thread_ids: lines without the substring Thread
are skipped; otherwise the digit scan yields the line truncated at the
end of its first digit run, which is the retained thread identifier. -/
def extract_line (l : String) : Option String :=
  if strstr_b thread_tok l.data then
    (digit_scan l.data false).map (fun t => String.mk t)
  else none

/-- The truncation get_thread_ids performs in place on a listing line:
a line containing Thread and a digit is cut at the end of its first
digit run; every other line is left unchanged. -/
def mutate_line (l : String) : String :=
  if strstr_b thread_tok l.data then
    match digit_scan l.data false with
    | some t => String.mk t
    | none => l
  else l

/-- get_thread_ids: fold over the listing lines, prepending each
extracted identifier (g_slist_prepend, with no final reversal). -/
def get_thread_ids (lines : List String) : List String :=
  lines.foldl
    (fun acc l =>
      match extract_line l with
      | some t => t :: acc
      | none => acc)
    []

/-- get_thread_ids together with the in-place effect it has on the turn
it was handed: the returned identifier list and the mutated lines. -/
def get_thread_ids_full (lines : List String) : List String × List String :=
  (get_thread_ids lines, lines.map mutate_line)

/-- attach_ok: scan the turn for a line whose first seven characters are
the ptrace token; return that line (the errbuf the C fills) on failure,
none when the attach succeeded. -/
def attach_ok : List String → Option String
  | [] => none
  | l :: rest =>
    if ptrace_tok.isPrefixOf l.data then some l else attach_ok rest

/-- G_MAXINT, the upper bound get_pid_list enforces on a parsed pid. -/
def G_MAXINT : Int := 2147483647

/-- The validation loop of get_pid_list over the already-parsed numeric
arguments: every pid must be positive and at most G_MAXINT, otherwise
the whole list is rejected; valid pids are prepended and the accumulator
reversed at the end (g_slist_prepend then g_slist_reverse). -/
def pid_loop : List Int → List Int → Option (List Int)
  | [], acc => some acc.reverse
  | p :: rest, acc =>
    if 0 < p ∧ p ≤ G_MAXINT then pid_loop rest (p :: acc) else none

/-- get_pid_list: no arguments at all is rejected (argc < 2), otherwise
the validation loop runs over the arguments in command-line order. -/
def get_pid_list (args : List Int) : Option (List Int) :=
  match args with
  | [] => none
  | _ :: _ => pid_loop args []

/-- The conversation states of the driver. -/
inductive St
  | start
  | attach
  | check_threads
  | backtrace
  | print_backtrace
  | detach
  | done
deriving DecidableEq

/-- The mutable session fields of struct App that the state machine
touches: the pending target queue, the thread-identifier queue of the
current target, and the conversation state. -/
structure App where
  pids : List Int
  threads : List String
  state : St
deriving DecidableEq

/-- Observable side effects of one turn-handling step: a command written
to gdb (send_command, before the appended newline), the verbatim
printing of a turn (print_lines), the per-target header (g_print), and
the skip warning for a failed attach (g_printerr with the target pid and
gdb's own message line). -/
inductive Ev
  | send (cmd : String)
  | printLines (ls : List String)
  | header (pid : Int)
  | skip (pid : Int) (msg : String)
deriving DecidableEq

/-- The three-line gdb command definition sent in STATE_START. -/
def pstackDefineCmd : String := "define pstack_thread\nthread $arg0\nbacktrace\nend\n"

/-- One invocation of process_gdb_output on a successfully framed turn:
if the pid queue is empty the state is first forced to DONE; then the
switch on the state consumes the turn, emits its side effects in order,
and updates the session. -/
def process_gdb_output (app : App) (lines : List String) : App × List Ev :=
  match app.pids with
  | [] => ({ app with state := St.done }, [Ev.send "quit"])
  | p :: rest =>
    match app.state with
    | St.start =>
      ({ app with state := St.attach }, [Ev.send pstackDefineCmd])
    | St.attach =>
      ({ app with state := St.check_threads }, [Ev.send ("attach " ++ toString p)])
    | St.check_threads =>
      match attach_ok lines with
      | none =>
        ({ app with state := St.backtrace }, [Ev.send "info threads"])
      | some e =>
        ({ app with pids := rest, state := St.attach },
         [Ev.skip p e, Ev.send "p 0"])
    | St.backtrace =>
      if lines.isEmpty then
        ({ app with state := St.print_backtrace },
         [Ev.header p, Ev.send "backtrace"])
      else
        match get_thread_ids lines with
        | [] => ({ app with threads := [], state := St.detach }, [Ev.header p])
        | t :: ts =>
          ({ app with threads := ts, state := St.print_backtrace },
           [Ev.header p, Ev.send ("pstack_thread " ++ t)])
    | St.print_backtrace =>
      match app.threads with
      | t :: ts =>
        ({ app with threads := ts },
         [Ev.printLines lines, Ev.send ("pstack_thread " ++ t)])
      | [] =>
        ({ app with threads := [], pids := rest, state := St.attach },
         [Ev.printLines lines, Ev.send "detach"])
    | St.detach =>
      ({ app with threads := [], pids := rest, state := St.attach },
       [Ev.send "detach"])
    | St.done => (app, [Ev.send "quit"])

/-- The pids for which an attach command is issued over a run of the
state machine on a sequence of framed turns: state ATTACH with a
non-empty queue sends attach for the queue front. -/
def attach_trace : App → List (List String) → List Int
  | _, [] => []
  | app, t :: ts =>
    (match app.pids, app.state with
     | p :: _, St.attach => [p]
     | _, _ => []) ++ attach_trace (process_gdb_output app t).1 ts

/-- States from which the front of the pid queue has not yet been
attached in the current visit. -/
def pre_attach_state : St → Bool
  | St.start => true
  | St.attach => true
  | St.done => true
  | _ => false

/-- Upper bound for the remaining attach trace: from a pre-attach state
every pending pid may still be attached; from any other state the front
pid has already been attached. -/
def trace_bound (app : App) : List Int :=
  if pre_attach_state app.state then app.pids else app.pids.tail

/-- Result of one non-blocking poll by waitpid with WNOHANG. -/
inductive WaitRes
  | errRes
  | notYet
  | exited
deriving DecidableEq

/-- Signals the reap supervisor can send. -/
inductive Sig
  | term
  | kill
deriving DecidableEq

/-- Everything one invocation of waitpid_timeout does: the decremented
retry counter, the signals sent, whether the timer is re-armed (the C
returns TRUE), and whether g_main_loop_quit was called. -/
structure ReapStep where
  reapTry : Int
  signals : List Sig
  rearm : Bool
  quitLoop : Bool
deriving DecidableEq

/-- REAP_RETRY_COUNT, the counter reap_gdb installs before polling. -/
def REAP_RETRY_COUNT : Int := 5

/-- waitpid_timeout: decrement the counter first; a waitpid error or an
observed exit quits the loop with no signal; a not-yet-exited child gets
SIGTERM when the counter has just reached zero, SIGKILL whenever it is
negative, and the timer stays armed. -/
def waitpid_timeout (reapTry : Int) (r : WaitRes) : ReapStep :=
  match r with
  | WaitRes.errRes => ⟨reapTry - 1, [], false, true⟩
  | WaitRes.notYet =>
    ⟨reapTry - 1,
     if reapTry - 1 = 0 then [Sig.term]
     else if reapTry - 1 < 0 then [Sig.kill]
     else [],
     true, false⟩
  | WaitRes.exited => ⟨reapTry - 1, [], false, true⟩

/-- The signal trace of the timer-driven reap loop over a sequence of
poll results, stopping as soon as an invocation does not re-arm. -/
def reap_run : Int → List WaitRes → List Sig
  | _, [] => []
  | t, r :: rest =>
    (waitpid_timeout t r).signals ++
      (if (waitpid_timeout t r).rearm then reap_run (waitpid_timeout t r).reapTry rest else [])

/-! ## Helper lemmas -/

lemma pre_nil {α : Type} (l : List α) : ([] : List α) <+: l := ⟨l, rfl⟩

lemma pre_cons_cons {α : Type} (a : α) {l₁ l₂ : List α} (h : l₁ <+: l₂) :
    a :: l₁ <+: a :: l₂ := by
  obtain ⟨t, ht⟩ := h
  exact ⟨t, by rw [List.cons_append, ht]⟩

lemma digit_scan_isPre :
    ∀ (l : List Char) (f : Bool) (t : List Char), digit_scan l f = some t → t <+: l := by
  intro l
  induction l with
  | nil =>
    intro f t h
    cases f <;> simp [digit_scan] at h
    subst h
    exact pre_nil []
  | cons c rest ih =>
    intro f t h
    by_cases hc : c.isDigit = true
    · rw [digit_scan, if_pos hc] at h
      cases hd : digit_scan rest true with
      | none => rw [hd] at h; exact absurd h (by simp)
      | some t' =>
        rw [hd] at h
        simp at h
        subst h
        exact pre_cons_cons c (ih true t' hd)
    · rw [digit_scan, if_neg hc] at h
      cases f with
      | true => simp at h; subst h; exact pre_nil _
      | false =>
        simp only [Bool.false_eq_true, if_false] at h
        cases hd : digit_scan rest false with
        | none => rw [hd] at h; exact absurd h (by simp)
        | some t' =>
          rw [hd] at h
          simp at h
          subst h
          exact pre_cons_cons c (ih false t' hd)

lemma digit_scan_true_eq :
    ∀ l : List Char, digit_scan l true = some (l.takeWhile Char.isDigit) := by
  intro l
  induction l with
  | nil => simp [digit_scan, List.takeWhile]
  | cons c rest ih =>
    by_cases hc : c.isDigit = true
    · simp [digit_scan, hc, ih, List.takeWhile_cons]
    · simp [digit_scan, hc, List.takeWhile_cons]

lemma digit_scan_none :
    ∀ l : List Char, (∀ c ∈ l, c.isDigit = false) → digit_scan l false = none := by
  intro l
  induction l with
  | nil => simp [digit_scan]
  | cons c rest ih =>
    intro h
    have hc : c.isDigit = false := h c (by simp)
    have hr := ih (fun x hx => h x (by simp [hx]))
    simp [digit_scan, hc, hr]

lemma digit_scan_split :
    ∀ (pre : List Char) (d : Char) (rest : List Char),
      (∀ c ∈ pre, c.isDigit = false) → d.isDigit = true →
      digit_scan (pre ++ d :: rest) false =
        some (pre ++ d :: rest.takeWhile Char.isDigit) := by
  intro pre
  induction pre with
  | nil =>
    intro d rest _ hd
    simp [digit_scan, hd, digit_scan_true_eq]
  | cons c pre' ih =>
    intro d rest h hd
    have hc : c.isDigit = false := h c (by simp)
    have hr := ih d rest (fun x hx => h x (by simp [hx])) hd
    simp [digit_scan, hc, hr]

lemma takeWhile_digit_append :
    ∀ (xs ys : List Char), (∀ c ∈ xs, c.isDigit = true) →
      (∀ c, ys.head? = some c → c.isDigit = false) →
      (xs ++ ys).takeWhile Char.isDigit = xs := by
  intro xs
  induction xs with
  | nil =>
    intro ys _ hy
    cases ys with
    | nil => simp
    | cons c t =>
      have hc := hy c rfl
      simp [List.takeWhile_cons, hc]
  | cons x xs' ih =>
    intro ys h hy
    have hx : x.isDigit = true := h x (by simp)
    have hr := ih ys (fun c hc => h c (by simp [hc])) hy
    simp [List.takeWhile_cons, hx, hr]

lemma get_thread_ids_aux :
    ∀ (lines : List String) (acc : List String),
      lines.foldl
        (fun acc l =>
          match extract_line l with
          | some t => t :: acc
          | none => acc) acc
      = (lines.filterMap extract_line).reverse ++ acc := by
  intro lines
  induction lines with
  | nil => simp
  | cons l rest ih =>
    intro acc
    cases he : extract_line l with
    | none => simp [List.foldl_cons, he, ih, List.filterMap_cons]
    | some t => simp [List.foldl_cons, he, ih, List.filterMap_cons]

lemma get_thread_ids_eq_rev (lines : List String) :
    get_thread_ids lines = (lines.filterMap extract_line).reverse := by
  unfold get_thread_ids
  rw [get_thread_ids_aux]
  simp

lemma mutate_line_isPre (l : String) : (mutate_line l).data <+: l.data := by
  unfold mutate_line
  by_cases hst : strstr_b thread_tok l.data = true
  · rw [if_pos hst]
    cases hd : digit_scan l.data false with
    | none => exact ⟨[], by simp⟩
    | some t =>
      have := digit_scan_isPre l.data false t hd
      simpa using this
  · rw [if_neg hst]

/-! ## Claims C2, C4, C7, C9 -/

/-- Claim C2, counterexample: get_thread_ids prepends each extracted
identifier and never reverses, so a two-line listing yields its
identifiers in the opposite of their order of appearance, contradicting
the claim that extraction (and hence the backtrace-command order) equals
the listing order. -/
theorem c2_counterexample :
    get_thread_ids ["a Thread 1,", "a Thread 2,"] = ["a Thread 2", "a Thread 1"]
    ∧ (["a Thread 2", "a Thread 1"] : List String) ≠ ["a Thread 1", "a Thread 2"] := by
  decide

/-- Claim C2, amended: the sequence of identifiers produced by
get_thread_ids is the REVERSE of the order in which the matching lines
appear in the listing, and send_thread_backtrace pops the front of that
queue, so per-thread backtrace commands go out in reverse listing
order. -/
theorem c2_amended :
    (∀ lines : List String,
       get_thread_ids lines = (lines.filterMap extract_line).reverse)
    ∧ (∀ (app : App) (p : Int) (rest : List Int) (t : String) (ts : List String)
         (lines : List String),
         app.pids = p :: rest → app.state = St.print_backtrace →
         app.threads = t :: ts →
         process_gdb_output app lines =
           ({ app with threads := ts },
            [Ev.printLines lines, Ev.send ("pstack_thread " ++ t)])) := by
  refine ⟨get_thread_ids_eq_rev, ?_⟩
  intro app p rest t ts lines hp hs ht
  simp [process_gdb_output, hp, hs, ht]

/-- Claim C2, witness for the amended theorem at concrete inputs. -/
theorem c2_witness :
    get_thread_ids ["b Thread 3"] = (["b Thread 3"].filterMap extract_line).reverse
    ∧ process_gdb_output ⟨[4], ["t9"], St.print_backtrace⟩ ["frame"] =
        (⟨[4], [], St.print_backtrace⟩,
         [Ev.printLines ["frame"], Ev.send ("pstack_thread " ++ "t9")]) := by
  refine ⟨c2_amended.1 ["b Thread 3"], ?_⟩
  have h := c2_amended.2 ⟨[4], ["t9"], St.print_backtrace⟩ 4 [] "t9" [] ["frame"]
    rfl rfl rfl
  simpa using h

/-- Claim C4, counterexample: the digit scan starts at the beginning of
the line, not after the Thread token, so a line whose only digit run
precedes the token still yields an identifier — and the retained text is
the whole line prefix through that digit run, not the bare run. -/
theorem c4_counterexample :
    extract_line "a1b Thread" = some "a1"
    ∧ get_thread_ids ["a1b Thread"] = ["a1"] := by
  decide

/-- Claim C4, amended: for a line containing the substring Thread, the
extracted identifier is the prefix of the line up to the end of the
first maximal digit run anywhere in the line (the digits need not follow
the token); a line with no digit at all, or without the token, yields
none. -/
theorem c4_amended :
    (∀ (l : String) (pre run post : List Char),
       l.data = pre ++ run ++ post →
       (∀ c ∈ pre, c.isDigit = false) →
       run ≠ [] →
       (∀ c ∈ run, c.isDigit = true) →
       (∀ c, post.head? = some c → c.isDigit = false) →
       extract_line l =
         (if strstr_b thread_tok l.data then some (String.mk (pre ++ run))
          else none))
    ∧ (∀ l : String, (∀ c ∈ l.data, c.isDigit = false) → extract_line l = none) := by
  constructor
  · intro l pre run post hl hpre hrun hdig hpost
    cases run with
    | nil => exact absurd rfl hrun
    | cons d run' =>
      have hd : d.isDigit = true := hdig d (by simp)
      have hrun' : ∀ c ∈ run', c.isDigit = true := fun c hc => hdig c (by simp [hc])
      have hsplit : l.data = pre ++ d :: (run' ++ post) := by rw [hl]; simp
      unfold extract_line
      cases hst : strstr_b thread_tok l.data with
      | false => simp [hst]
      | true =>
        simp only [hst, if_true]
        rw [hsplit, digit_scan_split pre d (run' ++ post) hpre hd,
            takeWhile_digit_append run' post hrun' hpost]
        simp
  · intro l h
    unfold extract_line
    rw [digit_scan_none l.data h]
    simp

/-- Claim C4, witness for the amended theorem at concrete inputs. -/
theorem c4_witness :
    extract_line "* 2 Thread x" =
      (if strstr_b thread_tok "* 2 Thread x".data
        then some (String.mk ("* ".data ++ "2".data)) else none)
    ∧ extract_line "Thread of control" = none := by
  refine ⟨?_, ?_⟩
  · exact c4_amended.1 "* 2 Thread x" "* ".data "2".data " Thread x".data
      (by decide) (by decide) (by decide) (by decide) (by decide)
  · exact c4_amended.2 "Thread of control" (by decide)

/-- Claim C7, confirmed: attach failure is detected exactly when some
line of the turn begins with the literal token ptrace: (at any
position); the reported message is such a line of the turn itself, and
on detection the step reports the pid with that message, sends the flush
command, drops the front target and returns to ATTACH, while on success
it sends info threads and moves to BACKTRACE. -/
theorem c7_attach_failure_detection :
    (∀ lines : List String,
       attach_ok lines = none ↔ ∀ l ∈ lines, ptrace_tok.isPrefixOf l.data = false)
    ∧ (∀ (lines : List String) (e : String),
       attach_ok lines = some e → e ∈ lines ∧ ptrace_tok.isPrefixOf e.data = true)
    ∧ (∀ (app : App) (p : Int) (rest : List Int) (lines : List String) (e : String),
       app.pids = p :: rest → app.state = St.check_threads →
       attach_ok lines = some e →
       process_gdb_output app lines =
         ({ app with pids := rest, state := St.attach },
          [Ev.skip p e, Ev.send "p 0"]))
    ∧ (∀ (app : App) (p : Int) (rest : List Int) (lines : List String),
       app.pids = p :: rest → app.state = St.check_threads →
       attach_ok lines = none →
       process_gdb_output app lines =
         ({ app with state := St.backtrace }, [Ev.send "info threads"])) := by
  refine ⟨?_, ?_, ?_, ?_⟩
  · intro lines
    induction lines with
    | nil => simp [attach_ok]
    | cons l rest ih =>
      by_cases hp : ptrace_tok.isPrefixOf l.data = true
      · simp [attach_ok, hp]
      · have hp' : ptrace_tok.isPrefixOf l.data = false := by
          cases h : ptrace_tok.isPrefixOf l.data
          · rfl
          · exact absurd h hp
        simp [attach_ok, hp', ih]
  · intro lines
    induction lines with
    | nil => intro e h; simp [attach_ok] at h
    | cons l rest ih =>
      intro e h
      by_cases hp : ptrace_tok.isPrefixOf l.data = true
      · simp only [attach_ok, if_pos hp] at h
        injection h with h
        subst h
        exact ⟨by simp, hp⟩
      · simp only [attach_ok, if_neg hp] at h
        obtain ⟨hm, hpre⟩ := ih e h
        exact ⟨by simp [hm], hpre⟩
  · intro app p rest lines e hp hs hok
    simp [process_gdb_output, hp, hs, hok]
  · intro app p rest lines hp hs hok
    simp [process_gdb_output, hp, hs, hok]

/-- Claim C7, witness at concrete inputs: a failing line in second
position is detected, reported with the pid, the target is dropped and
the state returns to ATTACH; a turn with no such line passes. -/
theorem c7_witness :
    (attach_ok ["x"] = none)
    ∧ ("ptrace: Operation not permitted" ∈
         ["No such process", "ptrace: Operation not permitted"]
       ∧ ptrace_tok.isPrefixOf "ptrace: Operation not permitted".data = true)
    ∧ process_gdb_output ⟨[111, 222], [], St.check_threads⟩
        ["No such process", "ptrace: Operation not permitted"] =
        (⟨[222], [], St.attach⟩,
         [Ev.skip 111 "ptrace: Operation not permitted", Ev.send "p 0"])
    ∧ process_gdb_output ⟨[111, 222], [], St.check_threads⟩ ["ok"] =
        (⟨[111, 222], [], St.backtrace⟩, [Ev.send "info threads"]) := by
  refine ⟨?_, ?_, ?_, ?_⟩
  · exact (c7_attach_failure_detection.1 ["x"]).mpr (by decide)
  · exact c7_attach_failure_detection.2.1
      ["No such process", "ptrace: Operation not permitted"]
      "ptrace: Operation not permitted" (by decide)
  · have h := c7_attach_failure_detection.2.2.1 ⟨[111, 222], [], St.check_threads⟩
      111 [222] ["No such process", "ptrace: Operation not permitted"]
      "ptrace: Operation not permitted" rfl rfl (by decide)
    simpa using h
  · have h := c7_attach_failure_detection.2.2.2 ⟨[111, 222], [], St.check_threads⟩
      111 [222] ["ok"] rfl rfl (by decide)
    simpa using h

/-- Claim C9, counterexample: get_thread_ids writes a NUL into each
matching line, truncating it at the end of its first digit run, so the
turn handed to the BACKTRACE handler is changed in content before it is
released. -/
theorem c9_counterexample :
    get_thread_ids_full ["x Thread 5 y"] = (["x Thread 5"], ["x Thread 5"])
    ∧ ("x Thread 5" : String) ≠ "x Thread 5 y" := by
  decide

/-- Claim C9, amended: a turn is consumed exactly once, but it is not
immutable: get_thread_ids truncates, in place, every line that contains
the substring Thread and a digit, replacing it by its prefix up to the
end of its first digit run; lines without the token are untouched, and
no handler reads the turn again after the mutation. -/
theorem c9_amended :
    (∀ lines : List String, (get_thread_ids_full lines).2 = lines.map mutate_line)
    ∧ (∀ l : String, (mutate_line l).data <+: l.data)
    ∧ (∀ l : String, strstr_b thread_tok l.data = false → mutate_line l = l) := by
  refine ⟨fun lines => rfl, mutate_line_isPre, ?_⟩
  intro l h
  simp [mutate_line, h]

/-- Claim C9, witness for the amended theorem at concrete inputs. -/
theorem c9_witness :
    (get_thread_ids_full ["plain"]).2 = ["plain"].map mutate_line
    ∧ (mutate_line "abc").data <+: "abc".data
    ∧ mutate_line "plain" = "plain" :=
  ⟨c9_amended.1 ["plain"], c9_amended.2.1 "abc", c9_amended.2.2 "plain" (by decide)⟩

/-! ## Claim C3 -/

/-- Claim C3, counterexample: in BACKTRACE, a non-empty turn from which
no thread identifier could be extracted does NOT send the plain
backtrace command; the handler sends nothing at all and the state
becomes DETACH, not PRINT_BACKTRACE. -/
theorem c3_counterexample :
    process_gdb_output ⟨[7], [], St.backtrace⟩ ["foo"] =
      (⟨[7], [], St.detach⟩, [Ev.header 7]) := by
  decide

/-- Claim C3, amended: in BACKTRACE, a non-empty turn with at least one
extracted identifier pops the first identifier, sends its
backtrace-macro command and moves to PRINT_BACKTRACE; an empty turn
sends plain backtrace and moves to PRINT_BACKTRACE; a non-empty turn
with no extracted identifier sends no command and moves to DETACH. -/
theorem c3_amended :
    (∀ (app : App) (p : Int) (rest : List Int) (lines : List String)
       (t : String) (ts : List String),
       app.pids = p :: rest → app.state = St.backtrace →
       lines ≠ [] → get_thread_ids lines = t :: ts →
       process_gdb_output app lines =
         ({ app with threads := ts, state := St.print_backtrace },
          [Ev.header p, Ev.send ("pstack_thread " ++ t)]))
    ∧ (∀ (app : App) (p : Int) (rest : List Int) (lines : List String),
       app.pids = p :: rest → app.state = St.backtrace →
       lines ≠ [] → get_thread_ids lines = [] →
       process_gdb_output app lines =
         ({ app with threads := [], state := St.detach }, [Ev.header p]))
    ∧ (∀ (app : App) (p : Int) (rest : List Int),
       app.pids = p :: rest → app.state = St.backtrace →
       process_gdb_output app [] =
         ({ app with state := St.print_backtrace },
          [Ev.header p, Ev.send "backtrace"])) := by
  refine ⟨?_, ?_, ?_⟩
  · intro app p rest lines t ts hp hs hne hids
    cases lines with
    | nil => exact absurd rfl hne
    | cons a as => simp [process_gdb_output, hp, hs, hids]
  · intro app p rest lines hp hs hne hids
    cases lines with
    | nil => exact absurd rfl hne
    | cons a as => simp [process_gdb_output, hp, hs, hids]
  · intro app p rest hp hs
    simp [process_gdb_output, hp, hs]

/-- Claim C3, witness for the amended theorem at concrete inputs. -/
theorem c3_witness :
    process_gdb_output ⟨[5], [], St.backtrace⟩ ["x Thread 8"] =
      (⟨[5], [], St.print_backtrace⟩,
       [Ev.header 5, Ev.send ("pstack_thread " ++ "x Thread 8")])
    ∧ process_gdb_output ⟨[5], [], St.backtrace⟩ ["bar"] =
      (⟨[5], [], St.detach⟩, [Ev.header 5])
    ∧ process_gdb_output ⟨[5], [], St.backtrace⟩ [] =
      (⟨[5], [], St.print_backtrace⟩, [Ev.header 5, Ev.send "backtrace"]) := by
  refine ⟨?_, ?_, ?_⟩
  · have h := c3_amended.1 ⟨[5], [], St.backtrace⟩ 5 [] ["x Thread 8"] "x Thread 8" []
      rfl rfl (by decide) (by decide)
    simpa using h
  · have h := c3_amended.2.1 ⟨[5], [], St.backtrace⟩ 5 [] ["bar"]
      rfl rfl (by decide) (by decide)
    simpa using h
  · have h := c3_amended.2.2 ⟨[5], [], St.backtrace⟩ 5 [] rfl rfl
    simpa using h

/-! ## Claims C5 and C10 (reap supervisor) -/

lemma reap_run_kill_phase :
    ∀ (n : Nat) (t : Int), t ≤ 0 →
      reap_run t (List.replicate n WaitRes.notYet) = List.replicate n Sig.kill := by
  intro n
  induction n with
  | zero => intro t _; simp [reap_run]
  | succ m ih =>
    intro t ht
    have h0 : ¬(t - 1 = 0) := by omega
    have h1 : t - 1 < 0 := by omega
    rw [List.replicate_succ, List.replicate_succ]
    simp only [reap_run, waitpid_timeout, if_neg h0, if_pos h1, if_true]
    rw [ih (t - 1) (by omega)]
    simp

lemma reap_run_pos :
    ∀ (n : Nat) (t : Int), 0 < t →
      reap_run t (List.replicate n WaitRes.notYet) =
        if (n : Int) < t then []
        else Sig.term :: List.replicate (n - t.toNat) Sig.kill := by
  intro n
  induction n with
  | zero =>
    intro t ht
    rw [if_pos (by exact_mod_cast ht)]
    simp [reap_run]
  | succ m ih =>
    intro t ht
    rw [List.replicate_succ]
    by_cases h1 : t = 1
    · subst h1
      simp only [reap_run, waitpid_timeout]
      norm_num
      rw [reap_run_kill_phase m 0 (by omega)]
      rw [if_neg (by omega : ¬((m : Int) < 0))]
    · have ht2 : 2 ≤ t := by omega
      have h0 : ¬(t - 1 = 0) := by omega
      have hneg : ¬(t - 1 < 0) := by omega
      simp only [reap_run, waitpid_timeout, if_neg h0, if_neg hneg, if_true]
      rw [ih (t - 1) (by omega)]
      by_cases hm : (m : Int) < t - 1
      · rw [if_pos hm, if_pos (by omega)]
        simp
      · rw [if_neg hm, if_neg (by omega)]
        have : m - (t - 1).toNat = m + 1 - t.toNat := by omega
        rw [this]
        simp

/-- Claim C5, counterexample: with a subprocess that never exits, the
supervisor sends SIGTERM on the fifth failed poll and SIGKILL on the
sixth, but then sends SIGKILL again on every later failed poll (the
counter stays negative), contradicting the claim that no further signal
is sent after the first SIGKILL. -/
theorem c5_counterexample :
    reap_run REAP_RETRY_COUNT (List.replicate 7 WaitRes.notYet)
      = [Sig.term, Sig.kill, Sig.kill] := by
  decide

/-- Claim C5, amended: starting from reap_try = REAP_RETRY_COUNT, a
never-exiting subprocess receives SIGTERM exactly once, on the fifth
failed poll, and SIGKILL on the sixth and on EVERY subsequent failed
poll; a poll that observes the exit status sends no signal and stops the
loop, so nothing is sent afterwards. -/
theorem c5_amended :
    (∀ n : Nat, reap_run REAP_RETRY_COUNT (List.replicate n WaitRes.notYet)
       = if n < 5 then [] else Sig.term :: List.replicate (n - 5) Sig.kill)
    ∧ (∀ (t : Int) (rest : List WaitRes),
        reap_run t (WaitRes.exited :: rest) = [])
    ∧ (∀ t : Int, waitpid_timeout t WaitRes.exited =
        ⟨t - 1, [], false, true⟩) := by
  refine ⟨?_, ?_, fun t => rfl⟩
  · intro n
    have h := reap_run_pos n 5 (by norm_num)
    have h5 : ((5 : Int)).toNat = 5 := rfl
    rw [h5] at h
    by_cases hn : n < 5
    · rw [if_pos (by exact_mod_cast hn)] at h
      rw [REAP_RETRY_COUNT, h, if_pos hn]
    · rw [if_neg (by omega)] at h
      rw [REAP_RETRY_COUNT, h, if_neg hn]
  · intro t rest
    simp [reap_run, waitpid_timeout]

/-- Claim C10, confirmed: when the non-blocking poll itself fails,
waitpid_timeout sends no signal, does not re-arm the timer, and quits
the reactor loop immediately; the whole remaining poll sequence is
abandoned with no signal ever sent. -/
theorem c10_poll_error_stops_loop :
    ∀ (t : Int) (rest : List WaitRes),
      waitpid_timeout t WaitRes.errRes = ⟨t - 1, [], false, true⟩
      ∧ reap_run t (WaitRes.errRes :: rest) = [] := by
  intro t rest
  refine ⟨rfl, ?_⟩
  simp [reap_run, waitpid_timeout]

/-! ## Claims C6 and C8 (output framer) -/

lemma read_turn_aux :
    ∀ (chunks : List (List Char)) (buf content : List Char),
      buf ++ cat_chunks chunks = content → buf ≠ content →
      promptTok.isSuffixOf content = true →
      (∀ i, i < content.length → promptTok.isSuffixOf (content.take i) = false) →
      read_lines (chunks.map ReadEvent.chunk) buf =
        (some (frame_lines content), false) := by
  intro chunks
  induction chunks with
  | nil =>
    intro buf content hcat hne _ _
    simp [cat_chunks] at hcat
    exact absurd hcat hne
  | cons c rest ih =>
    intro buf content hcat hne hsuf hnp
    have hcat' : (buf ++ c) ++ cat_chunks rest = content := by
      rw [← hcat]; simp [cat_chunks]
    simp only [List.map_cons, read_lines]
    by_cases hb : buf ++ c = content
    · rw [hb, if_pos hsuf]
    · have hpre : (buf ++ c) <+: content := ⟨cat_chunks rest, hcat'⟩
      have hlen : (buf ++ c).length < content.length := by
        rcases lt_or_eq_of_le hpre.length_le with h | h
        · exact h
        · exact absurd (hpre.eq_of_length h) hb
      have htake : content.take (buf ++ c).length = buf ++ c :=
        (List.prefix_iff_eq_take.mp hpre).symm
      have hfalse : promptTok.isSuffixOf (buf ++ c) = false := by
        have h := hnp (buf ++ c).length hlen
        rwa [htake] at h
      rw [if_neg (by simp [hfalse])]
      exact ih (buf ++ c) content hcat' hb hsuf hnp

/-- Claim C6, counterexample: the same stream content, ending with the
prompt sentinel, delivered in two different non-empty chunk
decompositions, is framed into two different turns: when a chunk
boundary falls right after an interior occurrence of the sentinel, the
framer stops there, so the returned lines depend on the chunking. -/
theorem c6_counterexample :
    ("a\n(gdb) ".data ++ "b\n(gdb) ".data = "a\n(gdb) b\n(gdb) ".data)
    ∧ read_lines [ReadEvent.chunk "a\n(gdb) b\n(gdb) ".data] [] =
        (some ["a".data, "(gdb) b".data], false)
    ∧ read_lines [ReadEvent.chunk "a\n(gdb) ".data,
                  ReadEvent.chunk "b\n(gdb) ".data] [] =
        (some ["a".data], false)
    ∧ (["a".data, "(gdb) b".data] ≠ ["a".data]) := by
  decide

/-- Claim C6, amended: for a stream whose content ends with the prompt
sentinel AND no proper prefix of which ends with the sentinel, read_lines
frames the same turn — the buffer split on line feeds with the final
sentinel artifact dropped — for every decomposition of the content into
chunks; without the proper-prefix condition the result can depend on the
chunking. -/
theorem c6_amended :
    ∀ (content : List Char) (chunks : List (List Char)),
      cat_chunks chunks = content →
      promptTok.isSuffixOf content = true →
      (∀ i, i < content.length → promptTok.isSuffixOf (content.take i) = false) →
      read_lines (chunks.map ReadEvent.chunk) [] =
        (some (frame_lines content), false) := by
  intro content chunks hcat hsuf hnp
  refine read_turn_aux chunks [] content (by simpa using hcat) ?_ hsuf hnp
  intro h
  rw [← h] at hsuf
  exact absurd hsuf (by decide)

/-- Claim C6, witness: the amended theorem applied to a concrete content
delivered in two chunks split in the middle of the sentinel. -/
theorem c6_witness :
    read_lines (["hi\n(g".data, "db) ".data].map ReadEvent.chunk) [] =
      (some (frame_lines "hi\n(gdb) ".data), false) :=
  c6_amended "hi\n(gdb) ".data ["hi\n(g".data, "db) ".data]
    (by decide) (by decide) (by decide)

/-- Claim C8, counterexample: a zero-byte read with no prompt match does
not behave as the claim says: on AGAIN (stream not closed) read_lines
returns no turn and the output handler returns false — the watch is
dropped instead of waiting for more readiness events — and on EOF no
error message is printed (the Boolean error-reported flag stays false)
although framing does stop. -/
theorem c8_counterexample :
    read_lines [ReadEvent.again] [] = (none, false)
    ∧ read_lines [ReadEvent.eof] [] = (none, false)
    ∧ process_continues (read_lines [ReadEvent.again] []).1 = false
    ∧ process_continues (read_lines [ReadEvent.eof] []).1 = false := by
  decide

/-- Claim C8, amended: a zero-byte read with no prompt match ends the
read loop with no turn and no printed message whether the stream is
merely not ready (AGAIN) or closed (EOF); in both cases the handler then
returns false, ending framing; only a hard read-error status reports a
message (and likewise ends the loop with no turn). -/
theorem c8_amended :
    ∀ buf : List Char, promptTok.isSuffixOf buf = false →
      read_lines [ReadEvent.again] buf = (none, false)
      ∧ read_lines [ReadEvent.eof] buf = (none, false)
      ∧ read_lines [ReadEvent.err] buf = (none, true)
      ∧ process_continues none = false := by
  intro buf h
  refine ⟨?_, ?_, ?_, rfl⟩ <;> simp [read_lines, h]

/-- Claim C8, witness for the amended theorem at a concrete buffer. -/
theorem c8_witness :
    read_lines [ReadEvent.again] ['x'] = (none, false)
    ∧ read_lines [ReadEvent.eof] ['x'] = (none, false)
    ∧ read_lines [ReadEvent.err] ['x'] = (none, true)
    ∧ process_continues none = false :=
  c8_amended ['x'] (by decide)

/-! ## Claim C1 (target queue discipline) -/

lemma pid_loop_all_valid :
    ∀ (args acc : List Int),
      (∀ p ∈ args, 0 < p ∧ p ≤ G_MAXINT) →
      pid_loop args acc = some (acc.reverse ++ args) := by
  intro args
  induction args with
  | nil => intro acc _; simp [pid_loop]
  | cons p rest ih =>
    intro acc h
    have hp := h p (by simp)
    simp only [pid_loop, if_pos hp]
    rw [ih (p :: acc) (fun q hq => h q (by simp [hq]))]
    simp

lemma attach_trace_bound :
    ∀ (turns : List (List String)) (app : App),
      attach_trace app turns <+: trace_bound app := by
  intro turns
  induction turns with
  | nil => intro app; exact pre_nil _
  | cons turn ts ih =>
    intro app
    obtain ⟨pids, threads, st⟩ := app
    cases pids with
    | nil =>
      cases st <;>
        simpa [attach_trace, process_gdb_output, trace_bound, pre_attach_state]
          using ih ⟨[], threads, St.done⟩
    | cons p rest =>
      cases st with
      | start =>
        simpa [attach_trace, process_gdb_output, trace_bound, pre_attach_state]
          using ih ⟨p :: rest, threads, St.attach⟩
      | attach =>
        have h := ih ⟨p :: rest, threads, St.check_threads⟩
        simp only [trace_bound, pre_attach_state] at h ⊢
        simp only [attach_trace, process_gdb_output]
        simp at h ⊢
        exact h
      | check_threads =>
        cases hok : attach_ok turn with
        | none =>
          simpa [attach_trace, process_gdb_output, hok, trace_bound,
                 pre_attach_state]
            using ih ⟨p :: rest, threads, St.backtrace⟩
        | some e =>
          simpa [attach_trace, process_gdb_output, hok, trace_bound,
                 pre_attach_state]
            using ih ⟨rest, threads, St.attach⟩
      | backtrace =>
        by_cases hem : turn.isEmpty = true
        · simpa [attach_trace, process_gdb_output, hem, trace_bound,
                 pre_attach_state]
            using ih ⟨p :: rest, threads, St.print_backtrace⟩
        · rw [Bool.not_eq_true] at hem
          cases hids : get_thread_ids turn with
          | nil =>
            simpa [attach_trace, process_gdb_output, hem, hids, trace_bound,
                   pre_attach_state]
              using ih ⟨p :: rest, [], St.detach⟩
          | cons t0 ts0 =>
            simpa [attach_trace, process_gdb_output, hem, hids, trace_bound,
                   pre_attach_state]
              using ih ⟨p :: rest, ts0, St.print_backtrace⟩
      | print_backtrace =>
        cases threads with
        | nil =>
          simpa [attach_trace, process_gdb_output, trace_bound,
                 pre_attach_state]
            using ih ⟨rest, [], St.attach⟩
        | cons t0 ts0 =>
          simpa [attach_trace, process_gdb_output, trace_bound,
                 pre_attach_state]
            using ih ⟨p :: rest, ts0, St.print_backtrace⟩
      | detach =>
        simpa [attach_trace, process_gdb_output, trace_bound, pre_attach_state]
          using ih ⟨rest, [], St.attach⟩
      | done =>
        simpa [attach_trace, process_gdb_output, trace_bound, pre_attach_state]
          using ih ⟨p :: rest, threads, St.done⟩

/-- Claim C1, confirmed: a list of valid pids survives get_pid_list in
command-line order; the pid queue loses exactly its front element in the
attach-failure branch of CHECK_THREADS and in the DETACH step, with the
state returning to ATTACH so later targets are still processed; the
ATTACH step sends the attach command for the queue front; and over any
run the sequence of attached pids is a prefix of the original list, so
each target is visited at most once and in the original order. -/
theorem c1_target_queue :
    (∀ args : List Int, args ≠ [] → (∀ p ∈ args, 0 < p ∧ p ≤ G_MAXINT) →
       get_pid_list args = some args)
    ∧ (∀ (app : App) (p : Int) (rest : List Int) (lines : List String)
         (e : String),
       app.pids = p :: rest → app.state = St.check_threads →
       attach_ok lines = some e →
       (process_gdb_output app lines).1.pids = rest
       ∧ (process_gdb_output app lines).1.state = St.attach)
    ∧ (∀ (app : App) (p : Int) (rest : List Int) (lines : List String),
       app.pids = p :: rest → app.state = St.detach →
       (process_gdb_output app lines).1.pids = rest
       ∧ (process_gdb_output app lines).1.state = St.attach)
    ∧ (∀ (app : App) (p : Int) (rest : List Int) (lines : List String),
       app.pids = p :: rest → app.state = St.attach →
       process_gdb_output app lines =
         ({ app with state := St.check_threads },
          [Ev.send ("attach " ++ toString p)]))
    ∧ (∀ (pids : List Int) (turns : List (List String)),
       attach_trace ⟨pids, [], St.start⟩ turns <+: pids) := by
  refine ⟨?_, ?_, ?_, ?_, ?_⟩
  · intro args hne hval
    cases args with
    | nil => exact absurd rfl hne
    | cons a as =>
      simp only [get_pid_list]
      rw [pid_loop_all_valid (a :: as) [] hval]
      simp
  · intro app p rest lines e hp hs hok
    constructor <;> simp [process_gdb_output, hp, hs, hok]
  · intro app p rest lines hp hs
    constructor <;> simp [process_gdb_output, hp, hs]
  · intro app p rest lines hp hs
    simp [process_gdb_output, hp, hs]
  · intro pids turns
    have h := attach_trace_bound turns ⟨pids, [], St.start⟩
    simpa [trace_bound, pre_attach_state] using h

/-- Claim C1, witness at concrete inputs: a valid two-pid list is kept
in order; a failed attach and a detach each pop exactly the front pid
and return to ATTACH; the attach command carries the front pid; and a
concrete run's attach trace is a prefix of the pid list. -/
theorem c1_witness :
    get_pid_list [3, 4] = some [3, 4]
    ∧ (process_gdb_output ⟨[3, 4], [], St.check_threads⟩ ["ptrace: x"]).1.pids = [4]
    ∧ (process_gdb_output ⟨[3, 4], [], St.check_threads⟩ ["ptrace: x"]).1.state = St.attach
    ∧ (process_gdb_output ⟨[3, 4], ["t"], St.detach⟩ ["z"]).1.pids = [4]
    ∧ (process_gdb_output ⟨[3, 4], ["t"], St.detach⟩ ["z"]).1.state = St.attach
    ∧ process_gdb_output ⟨[3, 4], [], St.attach⟩ ["w"] =
        (⟨[3, 4], [], St.check_threads⟩, [Ev.send ("attach " ++ toString (3 : Int))])
    ∧ attach_trace ⟨[1, 2], [], St.start⟩ [[], []] <+: [1, 2] := by
  obtain ⟨h1, h2, h3, h4, h5⟩ := c1_target_queue
  have ha := h2 ⟨[3, 4], [], St.check_threads⟩ 3 [4] ["ptrace: x"] "ptrace: x"
    rfl rfl (by decide)
  have hb := h3 ⟨[3, 4], ["t"], St.detach⟩ 3 [4] ["z"] rfl rfl
  have hc := h4 ⟨[3, 4], [], St.attach⟩ 3 [4] ["w"] rfl rfl
  refine ⟨h1 [3, 4] (by decide) (by decide), ha.1, ha.2, hb.1, hb.2, ?_, h5 [1, 2] [[], []]⟩
  simpa using hc
